import Mathlib

/-!
Shallow embedding of the reconciliation core of the Google Photos Album
Backup userscript (google_photos_album_backup.user.js), together with
theorems settling the specification claims about it.

Timestamps are modelled as rationals: JavaScript numbers are binary
floating point, and every arithmetic step the script performs on the
timestamp magnitudes in play (division and multiplication by powers of
ten, floor, comparisons) is exact on rationals in the relevant range.
JS string keys of the form fileName + bar + number are modelled as pairs
(fileName, numeric part); this is faithful because the numeric suffix
never contains the separator character, so the string encoding is
injective on the pairs.
-/

namespace GPAB

/-- Timestamp normalization to milliseconds, from normalizeToMs in the
source: values above 1e15 are treated as microseconds and divided by
1000, values above 1e12 are already milliseconds, anything else is
seconds and multiplied by 1000. -/
def normalizeToMs (ts : ℚ) : ℚ :=
  if ts > 1000000000000000 then ts / 1000
  else if ts > 1000000000000 then ts
  else ts * 1000

/-- Timestamp normalization to whole seconds, from the normalizeToSeconds
helper inside runImport: microseconds and milliseconds are floor-divided
down to seconds, anything else is returned unchanged. -/
def normalizeToSeconds (ts : ℚ) : ℚ :=
  if ts > 1000000000000000 then ((⌊ts / 1000000⌋ : ℤ) : ℚ)
  else if ts > 1000000000000 then ((⌊ts / 1000⌋ : ℤ) : ℚ)
  else ts

/-- The three photo matching policies accepted by runImport. -/
inductive MatchMode
  | exact
  | seconds
  | filename
deriving DecidableEq

/-- Derived photo identity key, as built at both lookup-construction and
row-matching sites in runImport: policy exact keys on the raw timestamp,
policy seconds on the timestamp floored to whole seconds, policy
filename on the file name alone.  The JS code renders the key as the
string fileName-bar-timestamp (or the bare file name); the pair
rendering used here is injective for the same data. -/
def deriveKey (mode : MatchMode) (fileName : String) (ts : ℚ) : String × Option ℚ :=
  match mode with
  | .exact => (fileName, some ts)
  | .seconds => (fileName, some (normalizeToSeconds ts))
  | .filename => (fileName, none)

/-- C4: normalizing a value that is already in milliseconds form (that
is, one the magnitude heuristic classifies as milliseconds) is a no-op,
so normalization is idempotent on such values. -/
theorem c4_normalize_idempotent (x : ℚ)
    (h1 : (1000000000000 : ℚ) < x) (h2 : x ≤ (1000000000000000 : ℚ)) :
    normalizeToMs (normalizeToMs x) = normalizeToMs x := by
  have hx : normalizeToMs x = x := by
    unfold normalizeToMs
    rw [if_neg (by linarith), if_pos h1]
  rw [hx]
  exact hx

/-- Witness for C4 at the concrete millisecond timestamp 1.7e12. -/
theorem c4_normalize_idempotent_witness :
    normalizeToMs (normalizeToMs 1700000000000) = normalizeToMs 1700000000000 :=
  c4_normalize_idempotent 1700000000000 (by norm_num) (by norm_num)

/-- Deduplication with JavaScript Set semantics (spreading a Set built
from a list keeps the first occurrence of each element, in order), as
used on each album's matched media keys in runImport. -/
def jsDedup {α : Type} [DecidableEq α] (l : List α) : List α :=
  l.foldl (fun acc x => if x ∈ acc then acc else acc ++ [x]) []

lemma jsDedup_foldl_mem {α : Type} [DecidableEq α] (l : List α) :
    ∀ (acc : List α) (x : α),
      (x ∈ l.foldl (fun acc x => if x ∈ acc then acc else acc ++ [x]) acc) ↔
        x ∈ acc ∨ x ∈ l := by
  induction l with
  | nil => simp
  | cons a l ih =>
    intro acc x
    have hstep : x ∈ (if a ∈ acc then acc else acc ++ [a]) ↔ x ∈ acc ∨ x = a := by
      by_cases ha : a ∈ acc
      · simp only [if_pos ha]
        constructor
        · exact fun h => Or.inl h
        · rintro (h | rfl) <;> assumption
      · simp [if_neg ha]
    simp only [List.foldl_cons, ih, hstep, List.mem_cons]
    tauto

lemma jsDedup_mem {α : Type} [DecidableEq α] (l : List α) (x : α) :
    x ∈ jsDedup l ↔ x ∈ l := by
  unfold jsDedup
  rw [jsDedup_foldl_mem]
  simp

lemma jsDedup_foldl_nodup {α : Type} [DecidableEq α] (l : List α) :
    ∀ acc : List α, acc.Nodup →
      (l.foldl (fun acc x => if x ∈ acc then acc else acc ++ [x]) acc).Nodup := by
  induction l with
  | nil => intro acc h; simpa using h
  | cons a l ih =>
    intro acc h
    simp only [List.foldl_cons]
    apply ih
    by_cases ha : a ∈ acc
    · simpa [if_pos ha] using h
    · rw [if_neg ha]
      simpa [List.nodup_append] using ⟨h, ha⟩

lemma jsDedup_nodup {α : Type} [DecidableEq α] (l : List α) :
    (jsDedup l).Nodup :=
  jsDedup_foldl_nodup l [] List.nodup_nil

/-- A library item as returned by the paginated listing API: only the
fields the core reads are modelled. -/
structure Item where
  mediaKey : String
  fileName : String
  timestamp : ℚ
deriving DecidableEq

/-- One page of the reverse-chronological listing API.  The page token
and the last-item timestamp may be absent (null or undefined in JS),
which is modelled with Option. -/
structure Page where
  items : List Item
  nextPageId : Option String
  lastItemTimestamp : Option ℚ

/-- JS truthiness of an optional timestamp: absent and zero are falsy. -/
def truthyTs : Option ℚ → Bool
  | none => false
  | some t => decide (t ≠ 0)

/-- JS truthiness of an optional page token: absent and the empty string
are falsy. -/
def truthyTok : Option String → Bool
  | none => false
  | some s => decide (s ≠ "")

/-- The per-page range filter of the fetch loops: keep an item when its
normalized timestamp lies in the inclusive range. -/
def inRange (startMs endMs : ℚ) (it : Item) : Bool :=
  decide (startMs ≤ normalizeToMs it.timestamp) &&
    decide (normalizeToMs it.timestamp ≤ endMs)

/-- The paginated fetch loop shared by runExport and runImport: fetch a
page at the current cursor, append the range-filtered items, break when
the page is non-empty and carries a truthy lastItemTimestamp that
normalizes below startMs, otherwise advance the cursor and loop while
the page token is truthy.  Returns the accumulated items and the number
of pages fetched; the fuel argument bounds recursion and is threaded as
the first numeric argument. -/
def fetchLoop (fetch : Option ℚ → Option String → Page) (startMs endMs : ℚ) :
    Nat → Option ℚ → Option String → List Item → List Item × Nat
  | 0, _, _, acc => (acc, 0)
  | fuel + 1, currentTs, pageId, acc =>
    let p := fetch currentTs pageId
    let acc2 := acc ++ p.items.filter (inRange startMs endMs)
    if p.items ≠ [] ∧ truthyTs p.lastItemTimestamp = true ∧
        normalizeToMs (p.lastItemTimestamp.getD 0) < startMs then
      (acc2, 1)
    else if truthyTok p.nextPageId = true then
      let r := fetchLoop fetch startMs endMs fuel p.lastItemTimestamp p.nextPageId acc2
      (r.1, r.2 + 1)
    else
      (acc2, 1)

lemma fetchLoop_pos (fetch : Option ℚ → Option String → Page) (startMs endMs : ℚ)
    (fuel : Nat) (currentTs : Option ℚ) (pageId : Option String) (acc : List Item) :
    1 ≤ (fetchLoop fetch startMs endMs (fuel + 1) currentTs pageId acc).2 := by
  rw [fetchLoop]
  split
  · simp
  · split
    · simp
    · simp

/-- C2: one step of the fetch loop is the last (exactly one page is
fetched) precisely when the fetched page carries no further page token,
or is non-empty with a normalized lastItemTimestamp below startMs; in
particular an empty page that still carries a page token does not
terminate the loop.  The hypotheses state the well-formedness of pages
actually returned by the listing API: a non-empty page reports a
non-zero lastItemTimestamp, and a returned page token is never the empty
string. -/
theorem c2_fetch_loop_stops_iff
    (fetch : Option ℚ → Option String → Page) (startMs endMs : ℚ) (fuel : Nat)
    (currentTs : Option ℚ) (pageId : Option String) (acc : List Item)
    (hts : (fetch currentTs pageId).items ≠ [] →
      ∃ t : ℚ, (fetch currentTs pageId).lastItemTimestamp = some t ∧ t ≠ 0)
    (htok : (fetch currentTs pageId).nextPageId ≠ some "") :
    (fetchLoop fetch startMs endMs (fuel + 2) currentTs pageId acc).2 = 1 ↔
      ((fetch currentTs pageId).nextPageId = none ∨
        ((fetch currentTs pageId).items ≠ [] ∧
          normalizeToMs ((fetch currentTs pageId).lastItemTimestamp.getD 0) < startMs)) := by
  rw [show fuel + 2 = (fuel + 1) + 1 from rfl, fetchLoop]
  set p := fetch currentTs pageId with hp
  split
  · rename_i hbreak
    simp only [true_iff]
    exact Or.inr ⟨hbreak.1, hbreak.2.2⟩
  · rename_i hnobreak
    split
    · rename_i htoktrue
      have hr := fetchLoop_pos fetch startMs endMs fuel p.lastItemTimestamp p.nextPageId
        (acc ++ p.items.filter (inRange startMs endMs))
      dsimp only
      constructor
      · intro h
        omega
      · rintro (hnone | ⟨hne, hlt⟩)
        · rw [hnone] at htoktrue
          simp [truthyTok] at htoktrue
        · obtain ⟨t, htv, htnz⟩ := hts hne
          exact absurd ⟨hne, by simp [truthyTs, htv, htnz], hlt⟩ hnobreak
    · rename_i htokfalse
      simp only [true_iff]
      left
      cases htokv : p.nextPageId with
      | none => rfl
      | some s =>
        rw [htokv] at htokfalse htok
        by_cases hs : s = ""
        · exact absurd (by rw [hs]) htok
        · exact absurd (by simp [truthyTok, hs]) htokfalse

/-- Witness for C2: a concrete page whose lastItemTimestamp (4 seconds,
normalizing to 4000 ms) falls below startMs = 5000 ms terminates the
loop after that single page even though a further page token exists. -/
theorem c2_fetch_loop_stops_iff_witness :
    (fetchLoop
      (fun _ _ => Page.mk [Item.mk "m" "f" 5] (some "t2") (some 4))
      5000 1000000 3 (some 5000) none []).2 = 1 :=
  (c2_fetch_loop_stops_iff
      (fun _ _ => Page.mk [Item.mk "m" "f" 5] (some "t2") (some 4))
      5000 1000000 1 (some 5000) none []
      (fun _ => ⟨4, rfl, by norm_num⟩)
      (by simp)).mpr
    (Or.inr ⟨by simp, by norm_num [normalizeToMs]⟩)

/-- One album reference inside an item's extended info; only the title
is read by the core. -/
structure AlbumEntry where
  title : String
deriving DecidableEq

/-- A library item enriched with its extended info (album memberships),
the result of spreading the detail-fetch response over the item. -/
structure EnrichedItem where
  mediaKey : String
  fileName : String
  timestamp : ℚ
  albums : List AlbumEntry
deriving DecidableEq

/-- The enrichment pipeline of runExport and runImport: each item's
extended info is fetched; a failed fetch (modelled as none) is logged
and the item skipped, a successful one contributes the enriched item.
The concurrent completion order is scheduling-dependent in the source;
the model fixes submission order, which the counting claims do not
depend on. -/
def enrich (items : List Item) (fetchInfo : Item → Option (List AlbumEntry)) :
    List EnrichedItem :=
  items.filterMap (fun it =>
    (fetchInfo it).map (fun al => EnrichedItem.mk it.mediaKey it.fileName it.timestamp al))

lemma enrich_length_add (items : List Item) (f : Item → Option (List AlbumEntry)) :
    (enrich items f).length + items.countP (fun it => (f it).isNone) = items.length := by
  induction items with
  | nil => rfl
  | cons a l ih =>
    unfold enrich at *
    cases hfa : f a <;>
      simp [List.filterMap_cons, List.countP_cons, hfa] <;>
      omega

/-- C5: for every item list and detail fetcher, the enrichment pipeline
is total (never throws), skips exactly the items whose detail fetch
fails, and returns exactly n minus k enriched items, where n is the
input length and k the number of failing fetches. -/
theorem c5_enrich_partial_failure (items : List Item)
    (f : Item → Option (List AlbumEntry)) :
    (enrich items f).length =
      items.length - items.countP (fun it => (f it).isNone) := by
  have h := enrich_length_add items f
  omega

/-- The album titles an enriched item is recorded under: entries with a
falsy (empty) title are dropped, mirroring the truthy-title filter in
the export builder. -/
def albumNames (it : EnrichedItem) : List String :=
  (it.albums.filter (fun a => a.title ≠ "")).map (fun a => a.title)

/-- One step of the export snapshot builder: for each album title of the
item, append the pair (fileName, raw timestamp) to that title's list.
The JS object of album arrays is modelled as a total function defaulting
to the empty list, matching the lazy array initialization in the
source. -/
def buildStep (m : String → List (String × ℚ)) (it : EnrichedItem) :
    String → List (String × ℚ) :=
  (albumNames it).foldl
    (fun m name => fun k => if k = name then m k ++ [(it.fileName, it.timestamp)] else m k)
    m

/-- The export snapshot builder: fold every enriched item into the
album-keyed structure. -/
def build (items : List EnrichedItem) : String → List (String × ℚ) :=
  items.foldl buildStep (fun _ => [])

lemma buildStep_foldl (pair : String × ℚ) (names : List String) :
    ∀ (m : String → List (String × ℚ)) (name : String),
      (names.foldl (fun m n => fun k => if k = n then m k ++ [pair] else m k) m) name =
        m name ++ List.replicate (names.count name) pair := by
  induction names with
  | nil => intro m name; simp
  | cons a l ih =>
    intro m name
    rw [List.foldl_cons, ih]
    by_cases h : name = a
    · subst h
      simp [List.count_cons, List.replicate_succ]
    · simp [List.count_cons, h, Ne.symm h]

/-- C6: folding one enriched item into the snapshot appends the pair
(fileName, original un-normalized timestamp) to the list of every album
title the item belongs to, once per occurrence of that title, and
changes nothing else; in particular an item with zero album titles
contributes nothing. -/
theorem c6_build_step (m : String → List (String × ℚ)) (it : EnrichedItem)
    (name : String) :
    buildStep m it name =
      m name ++ List.replicate ((albumNames it).count name) (it.fileName, it.timestamp) := by
  unfold buildStep
  exact buildStep_foldl _ _ m name

/-- The derived key of a current-library item, as computed when building
the photo lookup in runImport. -/
def itemKey (mode : MatchMode) (it : EnrichedItem) : String × Option ℚ :=
  deriveKey mode it.fileName it.timestamp

/-- The key-to-media-keys lookup built from the current library items in
runImport: every item's media key is appended to the bucket of its
derived key, collecting all duplicates.  The JS Map is modelled as a
total function defaulting to the empty bucket, matching the lazy bucket
initialization in the source. -/
def photoLookup (mode : MatchMode) (items : List EnrichedItem) :
    (String × Option ℚ) → List String :=
  items.foldl
    (fun m it => fun k => if k = itemKey mode it then m k ++ [it.mediaKey] else m k)
    (fun _ => [])

lemma photoLookup_foldl (mode : MatchMode) (items : List EnrichedItem) :
    ∀ (m : (String × Option ℚ) → List String) (k : String × Option ℚ),
      (items.foldl
        (fun m it => fun k => if k = itemKey mode it then m k ++ [it.mediaKey] else m k)
        m) k =
        m k ++ (items.filter (fun it => itemKey mode it = k)).map (fun it => it.mediaKey) := by
  induction items with
  | nil => intro m k; simp
  | cons a l ih =>
    intro m k
    rw [List.foldl_cons, ih]
    by_cases h : k = itemKey mode a
    · simp [h, List.filter_cons]
    · have h' : ¬(itemKey mode a = k) := fun hc => h hc.symm
      simp [h, h', List.filter_cons]

lemma photoLookup_eq_filter (mode : MatchMode) (items : List EnrichedItem)
    (k : String × Option ℚ) :
    photoLookup mode items k =
      (items.filter (fun it => itemKey mode it = k)).map (fun it => it.mediaKey) := by
  unfold photoLookup
  rw [photoLookup_foldl]
  simp

lemma photoLookup_mem (mode : MatchMode) (items : List EnrichedItem)
    (k : String × Option ℚ) (m : String) :
    m ∈ photoLookup mode items k ↔
      ∃ it ∈ items, itemKey mode it = k ∧ it.mediaKey = m := by
  rw [photoLookup_eq_filter]
  simp only [List.mem_map, List.mem_filter, decide_eq_true_eq]
  constructor
  · rintro ⟨it, ⟨hmem, hk⟩, hm⟩
    exact ⟨it, hmem, hk, hm⟩
  · rintro ⟨it, hmem, hk, hm⟩
    exact ⟨it, ⟨hmem, hk⟩, hm⟩

lemma photoLookup_ne_nil (mode : MatchMode) (items : List EnrichedItem)
    (k : String × Option ℚ) :
    photoLookup mode items k ≠ [] ↔ ∃ it ∈ items, itemKey mode it = k := by
  rw [photoLookup_eq_filter]
  rw [Ne, List.map_eq_nil_iff, List.filter_eq_nil_iff]
  push_neg
  simp

/-- A snapshot row (fileName, timestamp) of some album finds at least
one current-library item under the given matching policy. -/
def rowMatched (mode : MatchMode) (items : List EnrichedItem)
    (fileName : String) (ts : ℚ) : Prop :=
  photoLookup mode items (deriveKey mode fileName ts) ≠ []

/-- C3 (amended): the set of snapshot rows that match is weakly
increasing as the policy is relaxed — every row matched under exact is
matched under seconds, and every row matched under seconds is matched
under filename.  (The distinct-key counts the code reports are not
comparable across policies, see the counterexample.) -/
theorem c3_amended_row_matched_monotone (items : List EnrichedItem)
    (fileName : String) (ts : ℚ) :
    (rowMatched .exact items fileName ts → rowMatched .seconds items fileName ts) ∧
      (rowMatched .seconds items fileName ts → rowMatched .filename items fileName ts) := by
  constructor
  · intro h
    rw [rowMatched, photoLookup_ne_nil] at h ⊢
    obtain ⟨it, hmem, hk⟩ := h
    refine ⟨it, hmem, ?_⟩
    simp only [itemKey, deriveKey, Prod.mk.injEq, Option.some.injEq] at hk ⊢
    exact ⟨hk.1, by rw [hk.2]⟩
  · intro h
    rw [rowMatched, photoLookup_ne_nil] at h ⊢
    obtain ⟨it, hmem, hk⟩ := h
    refine ⟨it, hmem, ?_⟩
    simp only [itemKey, deriveKey, Prod.mk.injEq, Option.some.injEq] at hk ⊢
    exact ⟨hk.1, trivial⟩

/-- Witness for C3 (amended) at a concrete library and row: a row
matched under the seconds policy is matched under the filename policy. -/
theorem c3_amended_row_matched_monotone_witness :
    rowMatched .filename [EnrichedItem.mk "m1" "a.jpg" 5 []] "a.jpg" 5 :=
  (c3_amended_row_matched_monotone [EnrichedItem.mk "m1" "a.jpg" 5 []] "a.jpg" 5).2
    (by unfold rowMatched; decide)

/-- The derived keys of an album's snapshot rows. -/
def rowKeys (mode : MatchMode) (photos : List (String × ℚ)) :
    List (String × Option ℚ) :=
  photos.map (fun r => deriveKey mode r.1 r.2)

/-- The number of distinct derived keys that matched, as reported by the
matcher (the size of the matchedPhotos Set in the source). -/
def matchedCount (mode : MatchMode) (entries : List (String × List (String × ℚ)))
    (items : List EnrichedItem) : Nat :=
  (jsDedup (((entries.map (fun e => rowKeys mode e.2)).flatten).filter
    (fun k => photoLookup mode items k ≠ []))).length

/-- Counterexample to C3 as stated: with two library copies of a.jpg at
5 s and 7 s and a snapshot album listing both rows, the seconds policy
reports two matched keys while the filename policy collapses them to
one, so the matched-counts are not weakly increasing from seconds to
filename. -/
theorem c3_counterexample :
    matchedCount .filename
        [("X", [("a.jpg", 5), ("a.jpg", 7)])]
        [EnrichedItem.mk "m1" "a.jpg" 5 [], EnrichedItem.mk "m2" "a.jpg" 7 []] <
      matchedCount .seconds
        [("X", [("a.jpg", 5), ("a.jpg", 7)])]
        [EnrichedItem.mk "m1" "a.jpg" 5 [], EnrichedItem.mk "m2" "a.jpg" 7 []] := by
  decide

/-- First-match association-list lookup, the observation function for
the album-to-media-keys plan Map. -/
def lookupA {α : Type} : String → List (String × α) → Option α
  | _, [] => none
  | k, e :: es => if k = e.1 then some e.2 else lookupA k es

lemma lookupA_eq_none_of_not_mem {α : Type} (k : String) (l : List (String × α))
    (h : k ∉ l.map Prod.fst) : lookupA k l = none := by
  induction l with
  | nil => rfl
  | cons e es ih =>
    simp only [List.map_cons, List.mem_cons, not_or] at h
    rw [lookupA, if_neg h.1]
    exact ih h.2

/-- All media keys an album's snapshot rows resolve to, in row order,
before deduplication: the concatenation of the lookup buckets of the
rows' derived keys (unmatched rows contribute the empty bucket). -/
def albumMediaKeys (mode : MatchMode) (items : List EnrichedItem)
    (photos : List (String × ℚ)) : List String :=
  (photos.map (fun r => photoLookup mode items (deriveKey mode r.1 r.2))).flatten

/-- The restore matcher's final plan, from runImport: each snapshot
album whose rows resolved to at least one media key maps to the
deduplicated list of those keys; albums with no matches are dropped.
The insertion-ordered JS Map is modelled as the association list the
loop builds. -/
def matchAlbums (mode : MatchMode) (entries : List (String × List (String × ℚ)))
    (items : List EnrichedItem) : List (String × List String) :=
  match entries with
  | [] => []
  | e :: es =>
    if albumMediaKeys mode items e.2 = [] then matchAlbums mode es items
    else (e.1, jsDedup (albumMediaKeys mode items e.2)) :: matchAlbums mode es items

lemma matchAlbums_names_sub (mode : MatchMode)
    (entries : List (String × List (String × ℚ))) (items : List EnrichedItem)
    (n : String) (h : n ∈ (matchAlbums mode entries items).map Prod.fst) :
    n ∈ entries.map Prod.fst := by
  induction entries with
  | nil => simp [matchAlbums] at h
  | cons e es ih =>
    rw [matchAlbums] at h
    simp only [List.map_cons, List.mem_cons]
    by_cases hfe : albumMediaKeys mode items e.2 = []
    · rw [if_pos hfe] at h
      exact Or.inr (ih h)
    · rw [if_neg hfe] at h
      simp only [List.map_cons, List.mem_cons] at h
      rcases h with h | h
      · exact Or.inl h
      · exact Or.inr (ih h)

lemma matchAlbums_lookup (mode : MatchMode)
    (entries : List (String × List (String × ℚ))) (items : List EnrichedItem)
    (name : String) (rows : List (String × ℚ))
    (hmem : (name, rows) ∈ entries) (hnd : (entries.map Prod.fst).Nodup) :
    lookupA name (matchAlbums mode entries items) =
      if albumMediaKeys mode items rows = [] then none
      else some (jsDedup (albumMediaKeys mode items rows)) := by
  induction entries with
  | nil => cases hmem
  | cons e es ih =>
    simp only [List.map_cons, List.nodup_cons] at hnd
    rw [matchAlbums]
    rcases List.mem_cons.mp hmem with heq | htail
    · obtain rfl : e = (name, rows) := heq.symm
      by_cases hn0 : albumMediaKeys mode items rows = []
      · rw [if_pos (by simpa using hn0), if_pos hn0]
        apply lookupA_eq_none_of_not_mem
        intro hc
        exact hnd.1 (matchAlbums_names_sub mode es items name hc)
      · rw [if_neg (by simpa using hn0), lookupA, if_pos rfl, if_neg hn0]
    · have hne : name ≠ e.1 := by
        intro hc
        exact hnd.1 (hc ▸ List.mem_map_of_mem Prod.fst htail)
      by_cases hfe : albumMediaKeys mode items e.2 = []
      · rw [if_pos hfe]
        exact ih htail hnd.2
      · rw [if_neg hfe, lookupA, if_neg hne]
        exact ih htail hnd.2

/-- C7: in the matcher's final plan, an album title is absent exactly
when none of its snapshot rows matched; when present, its plan is the
deduplicated list of resolved media keys, it has no duplicates, and a
media key belongs to it exactly when some current item with that media
key has the derived key of some row of the album. -/
theorem c7_matcher_plan (mode : MatchMode)
    (entries : List (String × List (String × ℚ))) (items : List EnrichedItem)
    (name : String) (rows : List (String × ℚ))
    (hmem : (name, rows) ∈ entries) (hnd : (entries.map Prod.fst).Nodup) :
    (lookupA name (matchAlbums mode entries items) = none ↔
        ∀ r ∈ rows, photoLookup mode items (deriveKey mode r.1 r.2) = []) ∧
      ∀ l, lookupA name (matchAlbums mode entries items) = some l →
        l = jsDedup (albumMediaKeys mode items rows) ∧ l.Nodup ∧
          ∀ m, m ∈ l ↔ ∃ it ∈ items, it.mediaKey = m ∧
            ∃ r ∈ rows, itemKey mode it = deriveKey mode r.1 r.2 := by
  have hkey := matchAlbums_lookup mode entries items name rows hmem hnd
  have hnil : albumMediaKeys mode items rows = [] ↔
      ∀ r ∈ rows, photoLookup mode items (deriveKey mode r.1 r.2) = [] := by
    unfold albumMediaKeys
    rw [List.flatten_eq_nil_iff]
    constructor
    · intro h r hr
      exact h _ (List.mem_map_of_mem _ hr)
    · rintro h l hl
      obtain ⟨r, hr, rfl⟩ := List.mem_map.mp hl
      exact h r hr
  by_cases hn : albumMediaKeys mode items rows = []
  · rw [hkey, if_pos hn]
    exact ⟨iff_of_true rfl (hnil.mp hn), fun l hl => Option.noConfusion hl⟩
  · rw [hkey, if_neg hn]
    constructor
    · simp only [Option.some_ne_none, false_iff]
      intro hall
      exact hn (hnil.mpr hall)
    · intro l hl
      obtain rfl : jsDedup (albumMediaKeys mode items rows) = l := by
        injection hl
      refine ⟨rfl, jsDedup_nodup _, ?_⟩
      intro m
      rw [jsDedup_mem]
      unfold albumMediaKeys
      rw [List.mem_flatten]
      constructor
      · rintro ⟨bucket, hbucket, hmb⟩
        obtain ⟨r, hr, rfl⟩ := List.mem_map.mp hbucket
        obtain ⟨it, hit, hk, hkm⟩ := (photoLookup_mem mode items _ m).mp hmb
        exact ⟨it, hit, hkm, r, hr, hk⟩
      · rintro ⟨it, hit, hkm, r, hr, hk⟩
        refine ⟨photoLookup mode items (deriveKey mode r.1 r.2),
          List.mem_map_of_mem _ hr, ?_⟩
        exact (photoLookup_mem mode items _ m).mpr ⟨it, hit, hk, hkm⟩

/-- Witness for C7 at a concrete snapshot and library: one album with a
matching row and one with none. -/
theorem c7_matcher_plan_witness :
    (lookupA "X"
        (matchAlbums .exact [("X", [("a.jpg", 5)]), ("Y", [("b.jpg", 9)])]
          [EnrichedItem.mk "m1" "a.jpg" 5 []]) = none ↔
      ∀ r ∈ [("a.jpg", (5 : ℚ))],
        photoLookup .exact [EnrichedItem.mk "m1" "a.jpg" 5 []]
          (deriveKey .exact r.1 r.2) = []) ∧
    ∀ l, lookupA "X"
        (matchAlbums .exact [("X", [("a.jpg", 5)]), ("Y", [("b.jpg", 9)])]
          [EnrichedItem.mk "m1" "a.jpg" 5 []]) = some l →
      l = jsDedup (albumMediaKeys .exact [EnrichedItem.mk "m1" "a.jpg" 5 []]
          [("a.jpg", 5)]) ∧ l.Nodup ∧
        ∀ m, m ∈ l ↔ ∃ it ∈ [EnrichedItem.mk "m1" "a.jpg" 5 []], it.mediaKey = m ∧
          ∃ r ∈ [("a.jpg", (5 : ℚ))], itemKey .exact it = deriveKey .exact r.1 r.2 :=
  c7_matcher_plan .exact [("X", [("a.jpg", 5)]), ("Y", [("b.jpg", 9)])]
    [EnrichedItem.mk "m1" "a.jpg" 5 []] "X" [("a.jpg", 5)]
    (by decide) (by decide)

/-- An album as returned by the album-listing API. -/
structure ListedAlbum where
  title : String
  mediaKey : String
  isShared : Bool
deriving DecidableEq

/-- The cached container reference and shared flag of an album title. -/
structure AlbumInfo where
  mediaKey : String
  isShared : Bool
deriving DecidableEq

/-- The in-memory album cache built from the album listing at the start
of runImport: every listed album with a truthy (non-empty) title is
inserted keyed by its title, so a later album with the same title
overwrites an earlier one.  The argument is the concatenation of the
listing pages in fetch order; the JS Map is modelled as a total function
defaulting to none. -/
def buildCache (albums : List ListedAlbum) : String → Option AlbumInfo :=
  albums.foldl
    (fun m a =>
      if a.title ≠ "" then
        fun k => if k = a.title then some (AlbumInfo.mk a.mediaKey a.isShared) else m k
      else m)
    (fun _ => none)

/-- The album titles the creation step will try to create: the planned
titles absent from the cache. -/
def albumsToCreate (plan : List (String × List String))
    (cache : String → Option AlbumInfo) : List String :=
  (plan.map Prod.fst).filter (fun n => cache n = none)

/-- A membership-write API call: one batch of media keys added to one
album container, through the shared-album or plain-album entry point. -/
inductive ApiCall
  | addShared (batch : List String) (albumKey : String)
  | addNormal (batch : List String) (albumKey : String)
deriving DecidableEq

/-- The container reference an API call targets. -/
def callTarget : ApiCall → String
  | .addShared _ k => k
  | .addNormal _ k => k

/-- Batch splitting from the membership-write loop: the source iterates
i over 0, bs, 2*bs, ... below the list length and pushes the slice from
i to i + bs, so batch number j is the slice starting at j * bs and the
number of batches is the length divided by bs rounded up. -/
def makeBatches {α : Type} (bs : Nat) (l : List α) : List (List α) :=
  (List.range ((l.length + bs - 1) / bs)).map (fun j => (l.drop (j * bs)).take bs)

lemma makeBatches_nil {α : Type} (bs : Nat) : makeBatches bs ([] : List α) = [] := by
  unfold makeBatches
  cases bs with
  | zero => simp
  | succ b =>
    simp [Nat.div_eq_of_lt (Nat.lt_succ_self b)]

lemma makeBatches_length {α : Type} (bs : Nat) (l : List α) :
    (makeBatches bs l).length = (l.length + bs - 1) / bs := by
  unfold makeBatches
  simp

lemma makeBatches_cons {α : Type} {bs : Nat} (hbs : 0 < bs) {l : List α} (hl : l ≠ []) :
    makeBatches bs l = l.take bs :: makeBatches bs (l.drop bs) := by
  unfold makeBatches
  have hn : l.length ≠ 0 := by simpa [List.length_eq_zero] using hl
  have hN : (l.length + bs - 1) / bs = ((l.drop bs).length + bs - 1) / bs + 1 := by
    rw [List.length_drop]
    have h2 : l.length + bs - 1 = (l.length - 1) + bs := by omega
    rw [h2, Nat.add_div_right _ hbs]
    rcases le_or_lt bs l.length with hle | hlt
    · have h1 : l.length - bs + bs - 1 = l.length - 1 := by omega
      rw [h1]
    · have h1 : l.length - bs = 0 := by omega
      rw [h1]
      rw [Nat.div_eq_of_lt (by omega), Nat.div_eq_of_lt (by omega)]
  rw [hN, List.range_succ_eq_map, List.map_cons]
  congr 1
  · simp
  · rw [List.map_map]
    apply List.map_congr_left
    intro j _
    simp only [Function.comp_apply, List.drop_drop]
    congr 2
    rw [Nat.succ_mul]
    ring

lemma makeBatches_rec {α : Type} {bs : Nat} (hbs : 0 < bs)
    (motive : List α → Prop)
    (hnil : motive [])
    (hstep : ∀ l : List α, l ≠ [] → motive (l.drop bs) → motive l) :
    ∀ l, motive l := by
  have key : ∀ n : Nat, ∀ l : List α, l.length = n → motive l := by
    intro n
    induction n using Nat.strong_induction_on with
    | _ n ih =>
      intro l hn
      subst hn
      by_cases hl : l = []
      · subst hl
        exact hnil
      · refine hstep l hl (ih (l.drop bs).length ?_ (l.drop bs) rfl)
        have h1 : l.length ≠ 0 := by simpa [List.length_eq_zero] using hl
        simp only [List.length_drop]
        omega
  exact fun l => key l.length l rfl

lemma makeBatches_flatten {α : Type} {bs : Nat} (hbs : 0 < bs) (l : List α) :
    (makeBatches bs l).flatten = l := by
  induction l using makeBatches_rec hbs with
  | hnil => simp [makeBatches_nil]
  | hstep l hl ih =>
    rw [makeBatches_cons hbs hl, List.flatten_cons, ih, List.take_append_drop]

lemma makeBatches_size_le {α : Type} {bs : Nat} (hbs : 0 < bs) (l : List α) :
    ∀ b ∈ makeBatches bs l, b.length ≤ bs := by
  induction l using makeBatches_rec hbs with
  | hnil => simp [makeBatches_nil]
  | hstep l hl ih =>
    rw [makeBatches_cons hbs hl]
    intro b hb
    rcases List.mem_cons.mp hb with rfl | hb
    · simp [List.length_take]
    · exact ih b hb

lemma makeBatches_size_eq {α : Type} {bs : Nat} (hbs : 0 < bs) (l : List α) :
    ∀ i, i + 1 < (makeBatches bs l).length →
      ((makeBatches bs l).getD i []).length = bs := by
  induction l using makeBatches_rec hbs with
  | hnil => simp [makeBatches_nil]
  | hstep l hl ih =>
    rw [makeBatches_cons hbs hl]
    intro i hi
    cases i with
    | zero =>
      have hd : l.drop bs ≠ [] := by
        intro hc
        rw [hc, makeBatches_nil] at hi
        simp at hi
      have hlen : bs < l.length := by
        by_contra hc
        exact hd (List.drop_eq_nil_of_le (by omega))
      simp [List.length_take]
      omega
    | succ i =>
      simp only [List.length_cons, Nat.succ_lt_succ_iff] at hi
      simpa using ih i hi

/-- The membership-write call issued for one batch: the shared-album
entry point when the cached album is shared, the plain one otherwise. -/
def batchCall (info : AlbumInfo) (batch : List String) : ApiCall :=
  if info.isShared then ApiCall.addShared batch info.mediaKey
  else ApiCall.addNormal batch info.mediaKey

/-- Processing of one batch in the membership-write loop: the call is
issued, and the batch size is added to the success or error counter
according to the call outcome.  The accumulator is (successCount,
errorCount, calls issued so far). -/
def batchStep (info : AlbumInfo) (ok : ApiCall → Bool)
    (st : Nat × Nat × List ApiCall) (batch : List String) : Nat × Nat × List ApiCall :=
  if ok (batchCall info batch) then
    (st.1 + batch.length, st.2.1, st.2.2 ++ [batchCall info batch])
  else
    (st.1, st.2.1 + batch.length, st.2.2 ++ [batchCall info batch])

/-- Processing of one planned album in the membership-write loop: a
title with no cached container reference issues no call and counts all
its planned media keys as errors; otherwise its batches are processed
sequentially in order. -/
def entryStep (cache : String → Option AlbumInfo) (ok : ApiCall → Bool)
    (st : Nat × Nat × List ApiCall) (e : String × List String) : Nat × Nat × List ApiCall :=
  match cache e.1 with
  | none => (st.1, st.2.1 + e.2.length, st.2.2)
  | some info => (makeBatches 500 e.2).foldl (batchStep info ok) st

/-- The membership-write phase of runImport: fold the plan albums in
order, starting from zero success and error counts and no calls issued.
The per-call outcome oracle ok models the remote service. -/
def writeAlbums (cache : String → Option AlbumInfo) (ok : ApiCall → Bool)
    (plan : List (String × List String)) : Nat × Nat × List ApiCall :=
  plan.foldl (entryStep cache ok) (0, 0, [])

/-- Accumulator addition: counters add, call lists concatenate. -/
def dAdd (a b : Nat × Nat × List ApiCall) : Nat × Nat × List ApiCall :=
  (a.1 + b.1, a.2.1 + b.2.1, a.2.2 ++ b.2.2)

/-- The contribution of a single plan album, from the zero accumulator. -/
def entryDelta (cache : String → Option AlbumInfo) (ok : ApiCall → Bool)
    (e : String × List String) : Nat × Nat × List ApiCall :=
  entryStep cache ok (0, 0, []) e

/-- The calls issued for a single plan album: none when the title has no
cached container, otherwise one per batch in batch order. -/
def entryCalls (cache : String → Option AlbumInfo) (e : String × List String) :
    List ApiCall :=
  match cache e.1 with
  | none => []
  | some info => (makeBatches 500 e.2).map (batchCall info)

lemma batchStep_dAdd (info : AlbumInfo) (ok : ApiCall → Bool)
    (a st : Nat × Nat × List ApiCall) (b : List String) :
    batchStep info ok (dAdd a st) b = dAdd a (batchStep info ok st b) := by
  unfold batchStep dAdd
  by_cases h : ok (batchCall info b) <;>
    simp [h, Nat.add_assoc, List.append_assoc]

lemma foldl_batchStep_dAdd (info : AlbumInfo) (ok : ApiCall → Bool)
    (batches : List (List String)) :
    ∀ a st : Nat × Nat × List ApiCall,
      batches.foldl (batchStep info ok) (dAdd a st) =
        dAdd a (batches.foldl (batchStep info ok) st) := by
  induction batches with
  | nil => intro a st; rfl
  | cons b bs ih =>
    intro a st
    rw [List.foldl_cons, batchStep_dAdd, ih, List.foldl_cons]

lemma entryStep_dAdd (cache : String → Option AlbumInfo) (ok : ApiCall → Bool)
    (a st : Nat × Nat × List ApiCall) (e : String × List String) :
    entryStep cache ok (dAdd a st) e = dAdd a (entryStep cache ok st e) := by
  unfold entryStep
  cases hc : cache e.1 with
  | none => simp [dAdd, Nat.add_assoc]
  | some info => exact foldl_batchStep_dAdd info ok _ a st

lemma foldl_entryStep_dAdd (cache : String → Option AlbumInfo) (ok : ApiCall → Bool)
    (plan : List (String × List String)) :
    ∀ a st : Nat × Nat × List ApiCall,
      plan.foldl (entryStep cache ok) (dAdd a st) =
        dAdd a (plan.foldl (entryStep cache ok) st) := by
  induction plan with
  | nil => intro a st; rfl
  | cons e es ih =>
    intro a st
    rw [List.foldl_cons, entryStep_dAdd, ih, List.foldl_cons]

lemma dAdd_zero_right (a : Nat × Nat × List ApiCall) : dAdd a (0, 0, []) = a := by
  simp [dAdd]

lemma writeAlbums_cons (cache : String → Option AlbumInfo) (ok : ApiCall → Bool)
    (e : String × List String) (plan : List (String × List String)) :
    writeAlbums cache ok (e :: plan) =
      dAdd (entryDelta cache ok e) (writeAlbums cache ok plan) := by
  unfold writeAlbums
  rw [List.foldl_cons]
  have h : entryStep cache ok (0, 0, []) e =
      dAdd (entryDelta cache ok e) (0, 0, []) := by
    rw [dAdd_zero_right]
    rfl
  rw [h, foldl_entryStep_dAdd]

lemma foldl_batchStep_calls (info : AlbumInfo) (ok : ApiCall → Bool)
    (batches : List (List String)) :
    ∀ st : Nat × Nat × List ApiCall,
      (batches.foldl (batchStep info ok) st).2.2 =
        st.2.2 ++ batches.map (batchCall info) := by
  induction batches with
  | nil => intro st; simp
  | cons b bs ih =>
    intro st
    rw [List.foldl_cons, ih]
    unfold batchStep
    by_cases h : ok (batchCall info b) <;> simp [h]

lemma entryDelta_calls (cache : String → Option AlbumInfo) (ok : ApiCall → Bool)
    (e : String × List String) :
    (entryDelta cache ok e).2.2 = entryCalls cache e := by
  unfold entryDelta entryStep entryCalls
  cases hc : cache e.1 with
  | none => rfl
  | some info =>
    rw [foldl_batchStep_calls]
    rfl

lemma writeAlbums_calls (cache : String → Option AlbumInfo) (ok : ApiCall → Bool)
    (plan : List (String × List String)) :
    (writeAlbums cache ok plan).2.2 = (plan.map (entryCalls cache)).flatten := by
  induction plan with
  | nil => rfl
  | cons e es ih =>
    rw [writeAlbums_cons, List.map_cons, List.flatten_cons, ← ih, ← entryDelta_calls cache ok e]
    rfl

/-- C8: for a planned album whose title resolves in the cache, the
membership-write phase issues exactly the calls of the plan albums in
order; the album's own calls are one per batch, through the shared or
plain entry point according to the cached flag; and the batches are the
ordered slices of its media-key list: their concatenation restores the
list, there are ceil(m/500) of them, none exceeds 500, and every batch
except possibly the last has exactly 500 elements. -/
theorem c8_batched_writes (cache : String → Option AlbumInfo) (ok : ApiCall → Bool)
    (plan : List (String × List String)) (name : String) (mks : List String)
    (info : AlbumInfo) (_hmem : (name, mks) ∈ plan) (hc : cache name = some info) :
    (writeAlbums cache ok plan).2.2 = (plan.map (entryCalls cache)).flatten ∧
      entryCalls cache (name, mks) = (makeBatches 500 mks).map (batchCall info) ∧
      (makeBatches 500 mks).flatten = mks ∧
      (makeBatches 500 mks).length = (mks.length + 499) / 500 ∧
      (∀ b ∈ makeBatches 500 mks, b.length ≤ 500) ∧
      (∀ i, i + 1 < (makeBatches 500 mks).length →
        ((makeBatches 500 mks).getD i []).length = 500) := by
  refine ⟨writeAlbums_calls cache ok plan, ?_,
    makeBatches_flatten (by omega) mks,
    makeBatches_length 500 mks,
    makeBatches_size_le (by omega) mks,
    makeBatches_size_eq (by omega) mks⟩
  unfold entryCalls
  simp [hc]

set_option maxRecDepth 8000 in
/-- Witness for C8: an album of 1234 planned media keys is split into
batches of sizes 500, 500 and 234. -/
theorem c8_batched_writes_witness :
    ((writeAlbums (fun _ => some (AlbumInfo.mk "k" false)) (fun _ => true)
        [("A", List.replicate 1234 "m")]).2.2 =
      ([("A", List.replicate 1234 "m")].map
        (entryCalls (fun _ => some (AlbumInfo.mk "k" false)))).flatten ∧
      entryCalls (fun _ => some (AlbumInfo.mk "k" false)) ("A", List.replicate 1234 "m") =
        (makeBatches 500 (List.replicate 1234 "m")).map (batchCall (AlbumInfo.mk "k" false)) ∧
      (makeBatches 500 (List.replicate 1234 "m")).flatten = List.replicate 1234 "m" ∧
      (makeBatches 500 (List.replicate 1234 "m")).length =
        ((List.replicate 1234 "m").length + 499) / 500 ∧
      (∀ b ∈ makeBatches 500 (List.replicate 1234 "m"), b.length ≤ 500) ∧
      (∀ i, i + 1 < (makeBatches 500 (List.replicate 1234 "m")).length →
        ((makeBatches 500 (List.replicate 1234 "m")).getD i []).length = 500)) ∧
    (makeBatches 500 (List.replicate 1234 "m")).map List.length = [500, 500, 234] :=
  ⟨c8_batched_writes (fun _ => some (AlbumInfo.mk "k" false)) (fun _ => true)
      [("A", List.replicate 1234 "m")] "A" (List.replicate 1234 "m")
      (AlbumInfo.mk "k" false) (List.mem_singleton.mpr rfl) rfl,
    by rfl⟩

/-- C9: a planned album whose title has no cached container reference at
membership-write time contributes no call, counts all its planned media
keys as errors, and leaves the outcome of every other album exactly as
if it were not in the plan. -/
theorem c9_album_not_cached (cache : String → Option AlbumInfo) (ok : ApiCall → Bool)
    (pre post : List (String × List String)) (name : String) (mks : List String)
    (hc : cache name = none) :
    writeAlbums cache ok (pre ++ (name, mks) :: post) =
      ((writeAlbums cache ok (pre ++ post)).1,
        mks.length + (writeAlbums cache ok (pre ++ post)).2.1,
        (writeAlbums cache ok (pre ++ post)).2.2) := by
  induction pre with
  | nil =>
    simp only [List.nil_append]
    rw [writeAlbums_cons]
    have hδ : entryDelta cache ok (name, mks) = (0, mks.length, []) := by
      unfold entryDelta entryStep
      simp [hc]
    rw [hδ]
    simp [dAdd]
  | cons e pre ih =>
    simp only [List.cons_append]
    rw [writeAlbums_cons, ih, writeAlbums_cons]
    simp only [dAdd]
    refine Prod.ext rfl (Prod.ext ?_ rfl)
    simp only
    omega

/-- Witness for C9 at a concrete uncached album of two media keys. -/
theorem c9_album_not_cached_witness :
    writeAlbums (fun _ => none) (fun _ => true) ([] ++ ("A", ["m1", "m2"]) :: []) =
      ((writeAlbums (fun _ => none) (fun _ => true) ([] ++ [])).1,
        (["m1", "m2"] : List String).length +
          (writeAlbums (fun _ => none) (fun _ => true) ([] ++ [])).2.1,
        (writeAlbums (fun _ => none) (fun _ => true) ([] ++ [])).2.2) :=
  c9_album_not_cached (fun _ => none) (fun _ => true) [] [] "A" ["m1", "m2"] rfl

/-- C10: the album cache maps a (non-empty) title to the container
reference and shared flag of the last listed album with that title, so a
cached title is never in the to-create list and every membership call
for that title targets that single cached container. -/
theorem c10_cache_last_wins (l : List ListedAlbum) (t : String) (h : t ≠ "") :
    buildCache l t =
      (l.reverse.find? (fun a => a.title = t)).map
        (fun a => AlbumInfo.mk a.mediaKey a.isShared) ∧
      (∀ plan : List (String × List String),
        buildCache l t ≠ none → t ∉ albumsToCreate plan (buildCache l)) ∧
      ∀ info : AlbumInfo, buildCache l t = some info →
        ∀ mks : List String, ∀ c ∈ entryCalls (buildCache l) (t, mks),
          callTarget c = info.mediaKey := by
  refine ⟨?_, ?_, ?_⟩
  · induction l using List.reverseRecOn with
    | nil => rfl
    | append_singleton xs a ih =>
      unfold buildCache at ih ⊢
      rw [List.foldl_append, List.foldl_cons, List.foldl_nil, List.reverse_append]
      simp only [List.reverse_singleton, List.singleton_append, List.find?_cons]
      by_cases ha : a.title = ""
      · have hat : ¬(a.title = t) := by
          rw [ha]
          exact fun hc => h hc.symm
        rw [if_neg (not_not_intro ha)]
        simpa [hat] using ih
      · rw [if_pos ha]
        by_cases hta : t = a.title
        · simp [hta]
        · have hat : ¬(a.title = t) := fun hc => hta hc.symm
          simpa [hta, hat] using ih
  · intro plan hne hc
    rw [albumsToCreate, List.mem_filter] at hc
    exact hne (by simpa using hc.2)
  · intro info hinfo mks c hcall
    unfold entryCalls at hcall
    simp only [hinfo] at hcall
    obtain ⟨b, _, rfl⟩ := List.mem_map.mp hcall
    unfold batchCall callTarget
    by_cases hs : info.isShared <;> simp [hs]

/-- Witness for C10: two listed albums share the title A; the cache
holds the second one's container and shared flag. -/
theorem c10_cache_last_wins_witness :
    buildCache [ListedAlbum.mk "A" "k1" false, ListedAlbum.mk "A" "k2" true] "A" =
      ([ListedAlbum.mk "A" "k1" false, ListedAlbum.mk "A" "k2" true].reverse.find?
          (fun a => a.title = "A")).map
        (fun a => AlbumInfo.mk a.mediaKey a.isShared) ∧
      (∀ plan : List (String × List String),
        buildCache [ListedAlbum.mk "A" "k1" false, ListedAlbum.mk "A" "k2" true] "A" ≠ none →
          "A" ∉ albumsToCreate plan
            (buildCache [ListedAlbum.mk "A" "k1" false, ListedAlbum.mk "A" "k2" true])) ∧
      ∀ info : AlbumInfo,
        buildCache [ListedAlbum.mk "A" "k1" false, ListedAlbum.mk "A" "k2" true] "A" =
            some info →
          ∀ mks : List String, ∀ c ∈ entryCalls
              (buildCache [ListedAlbum.mk "A" "k1" false, ListedAlbum.mk "A" "k2" true])
              ("A", mks),
            callTarget c = info.mediaKey :=
  c10_cache_last_wins [ListedAlbum.mk "A" "k1" false, ListedAlbum.mk "A" "k2" true] "A"
    (by decide)

/-- A JSON value in the positions the import prelude inspects.  An album
mapping is a JS object from album title to an array of
(fileName, timestamp) rows; the other constructors cover the falsy and
truthy non-object shapes a field can carry. -/
inductive JsonVal
  | num (q : ℚ)
  | str (s : String)
  | jbool (b : Bool)
  | jnull
  | albumsObj (entries : List (String × List (String × ℚ)))
deriving DecidableEq

/-- The three top-level fields read from the parsed snapshot JSON; none
models an absent (undefined) property. -/
structure ImportJson where
  start_timestamp : Option JsonVal
  end_timestamp : Option JsonVal
  albums : Option JsonVal
deriving DecidableEq

/-- JS truthiness of an optionally present JSON value: absent, null,
zero, the empty string and false are falsy; every object is truthy. -/
def truthyJson : Option JsonVal → Bool
  | none => false
  | some .jnull => false
  | some (.num q) => decide (q ≠ 0)
  | some (.str s) => decide (s ≠ "")
  | some (.jbool b) => b
  | some (.albumsObj _) => true

/-- The numeric payload of a field.  Truthy fields of non-numeric shape
would go through JS coercions this model does not cover; they default to
0 here and no theorem in this file depends on that case. -/
def asNum : Option JsonVal → ℚ
  | some (.num q) => q
  | _ => 0

/-- The album-mapping payload of a field, defaulting to the empty
mapping for non-object shapes (same scope note as asNum). -/
def asAlbums : Option JsonVal → List (String × List (String × ℚ))
  | some (.albumsObj es) => es
  | _ => []

/-- An externally visible API interaction of the import run. -/
inductive Effect
  | listAlbumsPass
  | listItemsPage
  | itemInfoFetch
  | createAlbumCall (name : String)
  | membership (c : ApiCall)
deriving DecidableEq

/-- The early-exit conditions of runImport, in the order the code checks
them. -/
inductive ImportExit
  | malformed
  | noPhotosInJson
  | noItemsInRange
  | noAlbumsToProcess
deriving DecidableEq

/-- The terminal summary counters logged by runImport. -/
structure Report where
  albumsInJson : Nat
  uniquePhotos : Nat
  matched : Nat
  notFound : Nat
  albumsProcessed : Nat
  albumsCreated : Nat
  photosAdded : Nat
  errors : Nat
deriving DecidableEq

/-- The distinct derived keys of all snapshot rows (the uniquePhotos Set
of the source). -/
def uniquePhotoKeys (mode : MatchMode)
    (entries : List (String × List (String × ℚ))) : List (String × Option ℚ) :=
  jsDedup ((entries.map (fun e => rowKeys mode e.2)).flatten)

/-- The number of distinct derived keys with no match (the size of the
notFoundPhotos Set of the source). -/
def notFoundCount (mode : MatchMode) (entries : List (String × List (String × ℚ)))
    (items : List EnrichedItem) : Nat :=
  (jsDedup (((entries.map (fun e => rowKeys mode e.2)).flatten).filter
    (fun k => photoLookup mode items k = []))).length

/-- The creation step of runImport: for every planned title missing from
the cache, call createAlbum; on success insert the returned container
with isShared set to false, on failure log and continue with the next
title.  Returns the updated cache and the created count. -/
def createMissing (create : String → Option String) (cache : String → Option AlbumInfo)
    (names : List String) : (String → Option AlbumInfo) × Nat :=
  names.foldl
    (fun st name =>
      match create name with
      | some key =>
        (fun k => if k = name then some (AlbumInfo.mk key false) else st.1 k, st.2 + 1)
      | none => st)
    (cache, 0)

/-- The external collaborators runImport consults, modelled as pure
oracles: the flattened album listing, the paginated item listing (with a
fuel bound on the pages the model walks), the per-item detail fetcher
(none = failure), album creation (none = failure) and the per-call
membership-write outcome. -/
structure ImportEnv where
  listedAlbums : List ListedAlbum
  fetchPage : Option ℚ → Option String → Page
  fetchFuel : Nat
  itemInfo : Item → Option (List AlbumEntry)
  createAlbum : String → Option String
  addOk : ApiCall → Bool

/-- The import operation runImport, composed from the phase models in
this file: validation by truthiness of the three top-level fields, then
album listing, ranged item fetch, enrichment, matching, creation of
missing albums and batched membership writes, with the early exits of
the source in their order.  The second component lists the API
interactions performed, in order. -/
def runImport (env : ImportEnv) (j : ImportJson) (mode : MatchMode) :
    Except ImportExit Report × List Effect :=
  if ¬(truthyJson j.start_timestamp = true ∧ truthyJson j.end_timestamp = true ∧
      truthyJson j.albums = true) then
    (.error .malformed, [])
  else
    let startTs := asNum j.start_timestamp
    let endTs := asNum j.end_timestamp
    let entries := asAlbums j.albums
    let startMs := normalizeToMs startTs
    let endMs := normalizeToMs endTs
    if (uniquePhotoKeys mode entries).length = 0 then
      (.error .noPhotosInJson, [])
    else
      let cache := buildCache env.listedAlbums
      let fetched := fetchLoop env.fetchPage startMs endMs env.fetchFuel (some endTs) none []
      let effs1 := Effect.listAlbumsPass :: List.replicate fetched.2 Effect.listItemsPage
      if fetched.1 = [] then
        (.error .noItemsInRange, effs1)
      else
        let enriched := enrich fetched.1 env.itemInfo
        let effs2 := effs1 ++ List.replicate fetched.1.length Effect.itemInfoFetch
        let plan := matchAlbums mode entries enriched
        if plan = [] then
          (.error .noAlbumsToProcess, effs2)
        else
          let toCreate := albumsToCreate plan cache
          let created := createMissing env.createAlbum cache toCreate
          let effs3 := effs2 ++ toCreate.map Effect.createAlbumCall
          let written := writeAlbums created.1 env.addOk plan
          (.ok (Report.mk entries.length (uniquePhotoKeys mode entries).length
              (matchedCount mode entries enriched) (notFoundCount mode entries enriched)
              plan.length created.2 written.1 written.2.1),
            effs3 ++ written.2.2.map Effect.membership)

/-- C1 (amended): runImport halts immediately with the malformed-
snapshot outcome, performing no API interaction, precisely when at least
one of start_timestamp, end_timestamp, albums is absent or JS-falsy
(null, zero, the empty string, false); truthiness is the only shape
check performed at this point. -/
theorem c1_amended_malformed_iff_falsy (env : ImportEnv) (j : ImportJson)
    (mode : MatchMode) :
    ((runImport env j mode).1 = .error .malformed ↔
      ¬(truthyJson j.start_timestamp = true ∧ truthyJson j.end_timestamp = true ∧
        truthyJson j.albums = true)) ∧
    ((runImport env j mode).1 = .error .malformed → (runImport env j mode).2 = []) := by
  unfold runImport
  by_cases h : truthyJson j.start_timestamp = true ∧ truthyJson j.end_timestamp = true ∧
      truthyJson j.albums = true
  · rw [if_neg (not_not_intro h)]
    dsimp only
    constructor
    · refine iff_of_false ?_ (not_not_intro h)
      split_ifs <;> simp
    · intro hmal
      exfalso
      revert hmal
      split_ifs <;> simp
  · rw [if_pos h]
    exact ⟨iff_of_true rfl h, fun _ => rfl⟩

/-- Witness for C1 (amended): a snapshot with an absent start_timestamp
is rejected as malformed with no API interaction performed. -/
theorem c1_amended_malformed_iff_falsy_witness :
    (runImport
        (ImportEnv.mk [] (fun _ _ => Page.mk [] none none) 1 (fun _ => none)
          (fun _ => none) (fun _ => true))
        (ImportJson.mk none (some (.num 1)) (some (.albumsObj []))) .seconds).2 = [] :=
  (c1_amended_malformed_iff_falsy
      (ImportEnv.mk [] (fun _ _ => Page.mk [] none none) 1 (fun _ => none)
        (fun _ => none) (fun _ => true))
      (ImportJson.mk none (some (.num 1)) (some (.albumsObj []))) .seconds).2
    ((c1_amended_malformed_iff_falsy
        (ImportEnv.mk [] (fun _ _ => Page.mk [] none none) 1 (fun _ => none)
          (fun _ => none) (fun _ => true))
        (ImportJson.mk none (some (.num 1)) (some (.albumsObj []))) .seconds).1.mpr
      (by decide))

/-- The well-shapedness predicate of the claim, following the spec text:
integer start and end timestamps and an album-mapping object, possibly
empty. -/
def wellShapedSnapshot (j : ImportJson) : Prop :=
  (∃ n : ℤ, j.start_timestamp = some (.num (n : ℚ))) ∧
    (∃ n : ℤ, j.end_timestamp = some (.num (n : ℚ))) ∧
    ∃ es, j.albums = some (.albumsObj es)

/-- Counterexample to C1 as stated: the snapshot with integer timestamps
0 and 1700000000000 and an (empty) album mapping is well-shaped in the
claim's sense, yet the import rejects it as malformed, because the check
is JS truthiness and the integer 0 is falsy. -/
theorem c1_counterexample :
    wellShapedSnapshot
        (ImportJson.mk (some (.num 0)) (some (.num 1700000000000))
          (some (.albumsObj []))) ∧
      (runImport
          (ImportEnv.mk [] (fun _ _ => Page.mk [] none none) 1 (fun _ => none)
            (fun _ => none) (fun _ => true))
          (ImportJson.mk (some (.num 0)) (some (.num 1700000000000))
            (some (.albumsObj [])))
          .seconds).1 = .error .malformed :=
  ⟨⟨⟨0, by norm_num⟩, ⟨1700000000000, by norm_num⟩, ⟨[], rfl⟩⟩, by rfl⟩

end GPAB
